import Mathlib

/-!
Verification of the whiteboard annotation state engine.

This file gives a shallow embedding of the event-driven annotation state
machine of the whiteboard program (file src/main.rs): the scene model
(strokes, shapes, text annotations, action log), the input interpreter
handling pointer and keyboard events, double-click detection, the
text-edit session, and the vertex-batch construction for rendering.

Modelling conventions:
- f32 and f64 machine floats are modelled as exact rationals; the code
  performs only comparisons, negation, and affine arithmetic on them.
- Instant timestamps are rationals measured in milliseconds on a
  monotonic clock; Duration comparisons become rational comparisons.
- Rust String is the Lean String; the code manipulates text through
  chars(), which corresponds to the character list of a Lean String.
- The HashSet of pressed keys is a Finset over the key type.
- Vec push, pop, last, first and indexing become list append, dropLast,
  getLast?, head? and list indexing.
- The event handler WindowState::input is embedded as a function from a
  state and an event to Option of a state; a none result corresponds to
  a Rust panic (the only panicking site is the unchecked indexing
  self.texts[index] in the Backspace branch).
- Interactions with the windowing, GPU, egui and glyphon collaborators
  (raw_input pushes, redraw requests, buffers) are external effects and
  are not part of the modelled state.
-/

namespace Whiteboard

/-- Position or 2D point, the [f32; 2] of the code. -/
abbrev Pos : Type := ℚ × ℚ

/-- Normalized RGBA color, the [f32; 4] of the code. -/
abbrev ColorF : Type := ℚ × ℚ × ℚ × ℚ

/-- Byte RGBA color, the [u8; 4] of the code. -/
abbrev ColorU8 : Type := ℕ × ℕ × ℕ × ℕ

/-- Vertex: 2D position plus RGBA color (struct Vertex). -/
structure Vertex where
  position : Pos
  color : ColorF
deriving DecidableEq

instance : Inhabited Vertex := ⟨⟨(0, 0), (0, 0, 0, 0)⟩⟩

/-- Axis-aligned box used for cached text bounds (struct Rect). -/
structure Rect where
  x : ℚ
  y : ℚ
  width : ℚ
  height : ℚ
deriving DecidableEq

/-- Two-corner rectangle shape (struct Rectangle). -/
structure Rectangle where
  first : Pos
  last : Pos
  color : ColorF
deriving DecidableEq

/-- Rectangle::to_vertices: the 8 vertices describing the 4 edges of the
rectangle as 4 independent 2-vertex segments for a line-list pipeline. -/
def Rectangle.to_vertices (r : Rectangle) : List Vertex :=
  let x1 := r.first.1
  let y1 := r.first.2
  let x2 := r.last.1
  let y2 := r.last.2
  [ ⟨(x1, y2), r.color⟩,
    ⟨(x2, y2), r.color⟩,
    ⟨(x2, y2), r.color⟩,
    ⟨(x2, y1), r.color⟩,
    ⟨(x2, y1), r.color⟩,
    ⟨(x1, y1), r.color⟩,
    ⟨(x1, y1), r.color⟩,
    ⟨(x1, y2), r.color⟩ ]

/-- Text annotation entry (struct TextEntries). -/
structure TextEntries where
  position : Pos
  color : ColorU8
  text : String
  pending : Bool
  bounds : Rect
  font_size : ℤ
deriving DecidableEq

/-- TextEntries::null: fresh empty pending text entry. -/
def TextEntries.null (color : ColorU8) (font_size : ℤ) : TextEntries where
  font_size := font_size
  position := (0, 0)
  color := color
  text := ""
  pending := true
  bounds := ⟨0, 0, 0, 0⟩

/-- Undo log entry (enum Action). -/
inductive Action where
  | stroke (s : List Vertex)
  | text (t : TextEntries)
  | shapes (r : Rectangle)
deriving DecidableEq

/-- Logical keys used by the handler (tao keyboard Key, restricted to the
variants the code matches on; all other keys are collapsed into other). -/
inductive Key where
  | character (s : String)
  | enter
  | space
  | backspace
  | tab
  | delete
  | goBack
  | control
  | other (code : ℕ)
deriving DecidableEq

/-- Mouse buttons (tao MouseButton; Other collapses the catch-all arm). -/
inductive MouseButton where
  | left
  | right
  | middle
  | other
deriving DecidableEq

/-- The modelled slice of struct WindowState: the annotation engine state
touched by WindowState::input.  GPU, font and toolbar fields are external. -/
structure WindowState where
  pressed_keys : Finset Key
  font_size : ℤ
  last_cursor_position : Pos
  actions : List Action
  texts : List TextEntries
  size : ℕ × ℕ
  mouse_pressed : Bool
  strokes : List (List Vertex)
  current_stroke : List Vertex
  current_color : ColorF
  start_typing : Bool
  shape_positions : List Vertex
  shapes : List Rectangle
  create_rect : Bool
  cursor_visible : Bool
  cursor_timer : ℚ
  last_click_time : Option ℚ
  last_click_position : Option Pos
  editing_text_index : Option ℕ
deriving DecidableEq

/-- Window events consumed by WindowState::input (tao WindowEvent,
restricted to the arms the handler matches; timestamps produced by
Instant::now inside the handler are carried by the event). -/
inductive WindowEvent where
  | focused (f : Bool) (now : ℚ)
  | modifiersChanged
  | cursorMoved (position : Pos)
  | mouseInput (pressed : Bool) (button : MouseButton) (now : ℚ)
  | keyboardInput (pressed : Bool) (key : Key)
  | resized (w h : ℕ)

/-- DOUBLE_CLICK_THRESHOLD: Duration::from_millis(500), in milliseconds. -/
def DOUBLE_CLICK_THRESHOLD : ℚ := 500

/-- DOUBLE_CLICK_DISTANCE: 5 px. -/
def DOUBLE_CLICK_DISTANCE : ℚ := 5

/-- CURSOR_BLINK_INTERVAL: 0.5 s, in milliseconds. -/
def CURSOR_BLINK_INTERVAL : ℚ := 500

/-- normalized_to_rgba: componentwise f32-to-u8 cast of color * 255.0
(Rust float-to-integer casts truncate and saturate). -/
def normalized_to_rgba (c : ColorF) : ColorU8 :=
  (min (Int.toNat ⌊c.1 * 255⌋) 255,
   min (Int.toNat ⌊c.2.1 * 255⌋) 255,
   min (Int.toNat ⌊c.2.2.1 * 255⌋) 255,
   min (Int.toNat ⌊c.2.2.2 * 255⌋) 255)

/-- Double-click detection of the right-button-press arm: a previous click
time must exist and be at most the threshold ago, and a previous click
position must exist at squared distance at most the squared threshold. -/
def double_click_detected (last_click_time : Option ℚ)
    (last_click_position : Option Pos) (now : ℚ) (position : Pos) : Bool :=
  match last_click_time with
  | some t =>
    if now - t ≤ DOUBLE_CLICK_THRESHOLD then
      match last_click_position with
      | some p =>
        let dx := position.1 - p.1
        let dy := position.2 - p.2
        decide (dx * dx + dy * dy ≤ DOUBLE_CLICK_DISTANCE * DOUBLE_CLICK_DISTANCE)
      | none => false
    else false
  | none => false

/-- Containment test of the hit loop: position inside the cached bounds. -/
def in_bounds (t : TextEntries) (position : Pos) : Bool :=
  decide (t.bounds.x ≤ position.1) &&
  decide (position.1 ≤ t.bounds.x + t.bounds.width) &&
  decide (t.bounds.y ≤ position.2) &&
  decide (position.2 ≤ t.bounds.y + t.bounds.height)

/-- Index of the first text entry whose cached bounds contain the
position (the enumerate loop with break of the double-click arm). -/
def hit_text_index (texts : List TextEntries) (position : Pos) : Option ℕ :=
  texts.findIdx? (fun t => in_bounds t position)

/-- Focused(..) arm: poll the caret blink timer while typing. -/
def handle_focused (s : WindowState) (now : ℚ) : WindowState :=
  if s.start_typing = true ∧ CURSOR_BLINK_INTERVAL ≤ now - s.cursor_timer then
    { s with cursor_visible := !s.cursor_visible, cursor_timer := now }
  else s

/-- CursorMoved arm: record the cursor; while the left button is down,
convert to normalized device coordinates and extend the in-progress
geometry (two-point running rectangle, or freehand stroke append). -/
def handle_cursor_moved (s : WindowState) (position : Pos) : WindowState :=
  let s := { s with last_cursor_position := position }
  if s.mouse_pressed then
    let x : ℚ := position.1 / (s.size.1 : ℚ) * 2 - 1
    let y : ℚ := -(position.2 / (s.size.2 : ℚ) * 2 - 1)
    let v : Vertex := ⟨(x, y), s.current_color⟩
    if s.create_rect then
      if s.shape_positions = [] then
        { s with shape_positions := s.shape_positions ++ [v] }
      else
        let sp := if 1 < s.shape_positions.length
                  then s.shape_positions.dropLast else s.shape_positions
        { s with shape_positions := sp ++ [v] }
    else
      { s with current_stroke := s.current_stroke ++ [v] }
  else s

/-- Commit of the last text entry in the right-button arm: clear
start_typing, mark the last entry not pending, and log a Text action. -/
def commit_last_text (s : WindowState) : WindowState :=
  match s.texts.getLast? with
  | some t =>
    let t' := { t with pending := false }
    { s with start_typing := false,
             texts := s.texts.dropLast ++ [t'],
             actions := s.actions ++ [Action.text t'] }
  | none => { s with start_typing := false }

/-- Creation of a fresh pending text entry at the cursor (the else arm of
the right-button press). -/
def create_new_text (s : WindowState) : WindowState :=
  let entry := TextEntries.null (normalized_to_rgba s.current_color) s.font_size
  let entry := { entry with position := s.last_cursor_position }
  { s with start_typing := true, texts := s.texts ++ [entry] }

/-- Right-button press arm: double-click detection, hit test entering the
edit session, click-history update, then commit-or-create. -/
def handle_right_press (s : WindowState) (now : ℚ) : WindowState :=
  let position := s.last_cursor_position
  let dc := double_click_detected s.last_click_time s.last_click_position now position
  let s1 :=
    if dc then
      match hit_text_index s.texts position with
      | some i =>
        match s.texts[i]? with
        | some t =>
          { s with editing_text_index := some i,
                   start_typing := true,
                   texts := s.texts.set i { t with pending := true } }
        | none => s
      | none => s
    else s
  let s2 := { s1 with last_click_time := some now,
                      last_click_position := some position }
  if s2.start_typing = true ∧ s2.editing_text_index = none then
    commit_last_text s2
  else
    create_new_text s2

/-- Left-button press arm: begin a drag; a held shape-modifier key
(the character s) switches the gesture to rectangle dragging. -/
def handle_left_press (s : WindowState) : WindowState :=
  let s := { s with mouse_pressed := true, current_stroke := [] }
  if Key.character "s" ∈ s.pressed_keys then { s with create_rect := true } else s

/-- Shared shape-commit tail: when the in-progress shape list has a first
and a last point, push the resulting rectangle to the log and to the
shapes collection, then clear the list. -/
def commit_shape (s : WindowState) : WindowState :=
  match s.shape_positions.head?, s.shape_positions.getLast? with
  | some f, some l =>
    let rectangle : Rectangle := ⟨f.position, l.position, s.current_color⟩
    { s with actions := s.actions ++ [Action.shapes rectangle],
             shapes := s.shapes ++ [rectangle],
             shape_positions := [] }
  | _, _ => { s with shape_positions := [] }

/-- Left-button release arm: commit the non-empty stroke, then the
in-progress shape, clearing both in-progress buffers. -/
def handle_left_release (s : WindowState) : WindowState :=
  let s := { s with mouse_pressed := false }
  let s :=
    if s.current_stroke ≠ [] then
      { s with strokes := s.strokes ++ [s.current_stroke],
               actions := s.actions ++ [Action.stroke s.current_stroke],
               current_stroke := [] }
    else s
  let s := { s with create_rect := false }
  commit_shape s

/-- MouseInput arm: dispatch on button identity and press state.  The
catch-all button arm returns early without touching the state. -/
def handle_mouse_input (s : WindowState) (pressed : Bool)
    (button : MouseButton) (now : ℚ) : WindowState :=
  match button with
  | .other => s
  | _ =>
    let s1 := match button, pressed with
              | .right, true => handle_right_press s now
              | _, _ => s
    match button, pressed with
    | .left, true => handle_left_press s1
    | .left, false => handle_left_release s1
    | _, _ => s1

/-- Character-input append of the typing branch: push the literal onto
the last text entry when it is pending. -/
def append_char_to_last (s : WindowState) (c : String) : WindowState :=
  match s.texts.getLast? with
  | some t =>
    if t.pending then
      { s with texts := s.texts.dropLast ++ [{ t with text := t.text ++ c }] }
    else s
  | none => s

/-- Enter and GoBack arms: leave the edit session, mark the last entry
not pending and log a Text action. -/
def handle_enter_commit (s : WindowState) : WindowState :=
  let s := { s with start_typing := false, editing_text_index := none }
  match s.texts.getLast? with
  | some t =>
    let t' := { t with pending := false }
    { s with texts := s.texts.dropLast ++ [t'],
             actions := s.actions ++ [Action.text t'] }
  | none => s

/-- Character-count-aware removal of the final character, the expression
text.chars().take(count - 1).collect() of the Backspace arm. -/
def string_drop_last_char (t : String) : String :=
  String.mk (t.toList.take (t.toList.length - 1))

/-- Delete arm: pop one character from the targeted entry (checked
lookup through get_mut, so an out-of-range index is a no-op). -/
def handle_delete (s : WindowState) : WindowState :=
  match s.editing_text_index with
  | some i =>
    match s.texts[i]? with
    | some t => { s with texts := s.texts.set i { t with text := String.mk t.text.toList.dropLast } }
    | none => s
  | none =>
    match s.texts.getLast? with
    | some t => { s with texts := s.texts.dropLast ++ [{ t with text := String.mk t.text.toList.dropLast }] }
    | none => s

/-- Backspace arm: when the targeted entry is pending and non-empty,
drop its final character.  The editing_text_index branch indexes the
texts vector without a bounds check, hence the Option result. -/
def handle_backspace (s : WindowState) : Option WindowState :=
  match s.editing_text_index with
  | some i =>
    match s.texts[i]? with
    | none => none
    | some t =>
      if t.pending = true ∧ 0 < t.text.toList.length then
        some { s with texts := s.texts.set i { t with text := string_drop_last_char t.text } }
      else some s
  | none =>
    match s.texts.getLast? with
    | some t =>
      if t.pending = true ∧ 0 < t.text.toList.length then
        some { s with texts := s.texts.dropLast ++ [{ t with text := string_drop_last_char t.text }] }
      else some s
    | none => some s

/-- Undo: pop the action log tail and dispatch on the variant to pop the
matching collection tail; a no-op on an empty log. -/
def undo (s : WindowState) : WindowState :=
  match s.actions.getLast? with
  | some a =>
    let s := { s with actions := s.actions.dropLast }
    match a with
    | .stroke _ => { s with strokes := s.strokes.dropLast }
    | .text _ => { s with texts := s.texts.dropLast }
    | .shapes _ => { s with shapes := s.shapes.dropLast }
  | none => s

/-- Key press arm: record the key as held; while a text-edit session is
active, route to character append and the editing keys; otherwise test
the held-keys set for the Control plus z chord and undo. -/
def handle_key_press (s : WindowState) (key : Key) : Option WindowState :=
  let s := { s with pressed_keys := insert key s.pressed_keys }
  if s.start_typing = true ∨ s.editing_text_index.isSome = true then
    let s := match key with
             | .character c => append_char_to_last s c
             | _ => s
    match key with
    | .enter => some (handle_enter_commit s)
    | .delete => some (handle_delete s)
    | .goBack => some (handle_enter_commit s)
    | .backspace => handle_backspace s
    | _ => some s
  else if Key.control ∈ s.pressed_keys ∧ Key.character "z" ∈ s.pressed_keys then
    some (undo s)
  else some s

/-- Key release arm: remove the key from the held set, stop rectangle
dragging, and commit any in-progress shape, whatever the key was. -/
def handle_key_release (s : WindowState) (key : Key) : WindowState :=
  let s := { s with pressed_keys := s.pressed_keys.erase key, create_rect := false }
  commit_shape s

/-- WindowState::input: the event handler of the annotation engine.  A
none result corresponds to a panic. -/
def input (s : WindowState) (e : WindowEvent) : Option WindowState :=
  match e with
  | .focused _ now => some (handle_focused s now)
  | .modifiersChanged => some s
  | .cursorMoved position => some (handle_cursor_moved s position)
  | .mouseInput pressed button now => some (handle_mouse_input s pressed button now)
  | .keyboardInput pressed key =>
    if pressed then handle_key_press s key else some (handle_key_release s key)
  | .resized w h => some { s with size := (w, h) }

/-- Initial annotation-engine state built by WindowState::new. -/
def initState (w h : ℕ) : WindowState where
  pressed_keys := ∅
  font_size := 16
  last_cursor_position := (0, 0)
  actions := []
  texts := []
  size := (w, h)
  mouse_pressed := false
  strokes := []
  current_stroke := []
  current_color := (0, 0, 0, 1)
  start_typing := false
  shape_positions := []
  shapes := []
  create_rect := false
  cursor_visible := false
  cursor_timer := 0
  last_click_time := none
  last_click_position := none
  editing_text_index := none

/-- Run a sequence of window events from a state, propagating panics. -/
def runEvents (s : WindowState) : List WindowEvent → Option WindowState
  | [] => some s
  | e :: rest =>
    match input s e with
    | none => none
    | some s' => runEvents s' rest

/-- Segment-pair emission of WindowState::update for one stroke: a stroke
of length at least 2 contributes the adjacent-point pairs, indexed as in
the source loop; shorter strokes contribute nothing. -/
def stroke_segments (stroke : List Vertex) : List Vertex :=
  if 2 ≤ stroke.length then
    (List.range (stroke.length - 1)).flatMap
      (fun i => [stroke.getD i default, stroke.getD (i + 1) default])
  else []

/-- Line-list vertex batch of WindowState::update: stroke actions in log
order, followed by the in-progress stroke. -/
def update_vertex_batch (actions : List Action) (current_stroke : List Vertex) : List Vertex :=
  (actions.flatMap fun a =>
    match a with
    | .stroke stroke => stroke_segments stroke
    | _ => []) ++ stroke_segments current_stroke

/-- Count of stroke actions in a log. -/
def countStrokeActions (actions : List Action) : ℕ :=
  actions.countP (fun a => match a with | .stroke _ => true | _ => false)

/-- Count of shape actions in a log. -/
def countShapeActions (actions : List Action) : ℕ :=
  actions.countP (fun a => match a with | .shapes _ => true | _ => false)

/-- Count of text actions in a log. -/
def countTextActions (actions : List Action) : ℕ :=
  actions.countP (fun a => match a with | .text _ => true | _ => false)

/-- Count invariant of the scene model: stroke and shape actions are in
bijection with their collections, while text actions never outnumber the
text entries, strictly so while a text-edit session is active (a pending
never-committed entry exists). -/
def StateCountInv (s : WindowState) : Prop :=
  countStrokeActions s.actions = s.strokes.length ∧
  countShapeActions s.actions = s.shapes.length ∧
  countTextActions s.actions ≤ s.texts.length ∧
  ((s.start_typing = true ∨ s.editing_text_index.isSome = true) →
    countTextActions s.actions < s.texts.length)

/-- States reachable from the initial state by event-handler invocations
that do not panic: the observable points between invocations. -/
inductive Reachable : WindowState → Prop where
  | init (w h : ℕ) : Reachable (initState w h)
  | step {s s' : WindowState} {e : WindowEvent} :
      Reachable s → input s e = some s' → Reachable s'

/-- Iterated undo through the keyboard: n presses of the z key. -/
def undo_presses : ℕ → WindowState → Option WindowState
  | 0, s => some s
  | n + 1, s =>
    match input s (.keyboardInput true (.character "z")) with
    | none => none
    | some s' => undo_presses n s'

/-! ### Helper lemmas -/

lemma pairs_flatMap_length (f g : ℕ → Vertex) (n : ℕ) :
    ((List.range n).flatMap (fun i => [f i, g i])).length = 2 * n := by
  induction n with
  | zero => simp
  | succ n ih =>
    rw [List.range_succ, List.flatMap_append, List.length_append, ih]
    simp [Nat.mul_succ]

lemma pairs_flatMap_getD (f g : ℕ → Vertex) (n i : ℕ) (h : i < n) :
    ((List.range n).flatMap (fun j => [f j, g j])).getD (2 * i) default = f i ∧
    ((List.range n).flatMap (fun j => [f j, g j])).getD (2 * i + 1) default = g i := by
  induction n with
  | zero => omega
  | succ n ih =>
    rw [List.range_succ, List.flatMap_append]
    rcases Nat.lt_or_ge i n with h' | h'
    · have hlen := pairs_flatMap_length f g n
      have h2i : 2 * i < ((List.range n).flatMap (fun j => [f j, g j])).length := by omega
      have h2i1 : 2 * i + 1 < ((List.range n).flatMap (fun j => [f j, g j])).length := by omega
      rw [List.getD, List.getD, List.get?_append h2i, List.get?_append h2i1]
      exact ih h'
    · have hi : i = n := by omega
      subst hi
      have hlen := pairs_flatMap_length f g i
      constructor
      · rw [List.getD, List.get?_append_right (by omega)]
        simp [hlen, Nat.sub_self]
      · rw [List.getD, List.get?_append_right (by omega)]
        simp [hlen]

lemma stroke_segments_length_ge (stroke : List Vertex) (h : 2 ≤ stroke.length) :
    (stroke_segments stroke).length = 2 * (stroke.length - 1) := by
  rw [stroke_segments, if_pos h]
  exact pairs_flatMap_length _ _ _


/-- Claim C6: for every rectangle with corners first and last, the vertex
conversion emits exactly 8 vertices forming 4 independent 2-vertex
axis-aligned edge segments, with each corner endpoint duplicated to
satisfy the line-list layout, and all vertices carry the rectangle color. -/
theorem C6_rectangle_to_vertices (r : Rectangle) :
    (r.to_vertices).length = 8 ∧
    (∀ v ∈ r.to_vertices, v.color = r.color) ∧
    (∀ v ∈ r.to_vertices,
      v.position = (r.first.1, r.first.2) ∨ v.position = (r.first.1, r.last.2) ∨
      v.position = (r.last.1, r.first.2) ∨ v.position = (r.last.1, r.last.2)) ∧
    (∀ k : Fin 4,
      ((r.to_vertices).getD (2 * k.val) default).position.1
          = ((r.to_vertices).getD (2 * k.val + 1) default).position.1 ∨
      ((r.to_vertices).getD (2 * k.val) default).position.2
          = ((r.to_vertices).getD (2 * k.val + 1) default).position.2) ∧
    ((r.to_vertices).getD 1 default = (r.to_vertices).getD 2 default ∧
     (r.to_vertices).getD 3 default = (r.to_vertices).getD 4 default ∧
     (r.to_vertices).getD 5 default = (r.to_vertices).getD 6 default ∧
     (r.to_vertices).getD 7 default = (r.to_vertices).getD 0 default) := by
  refine ⟨rfl, ?_, ?_, ?_, ?_, ?_, ?_, ?_⟩
  · intro v hv
    simp only [Rectangle.to_vertices] at hv
    fin_cases hv <;> rfl
  · intro v hv
    simp only [Rectangle.to_vertices] at hv
    fin_cases hv <;> simp
  · intro k
    fin_cases k <;> simp [Rectangle.to_vertices, List.getD]
  all_goals rfl

/-- Claim C6 witness: evaluation at the rectangle with corners (0,0) and
(10,10). -/
theorem C6_witness :
    ((Rectangle.mk (0, 0) (10, 10) (0, 0, 0, 1)).to_vertices).length = 8 :=
  (C6_rectangle_to_vertices ⟨(0, 0), (10, 10), (0, 0, 0, 1)⟩).1


/-- Claim C7: in the line-list vertex batch, every stroke of length at
least 2 contributes exactly len - 1 adjacent-point segment pairs
(vertex i, vertex i+1) in order, and every stroke of length below 2
contributes no vertices at all. -/
theorem C7_stroke_segment_pairs (stroke : List Vertex) :
    (stroke.length < 2 → stroke_segments stroke = []) ∧
    (2 ≤ stroke.length →
      (stroke_segments stroke).length = 2 * (stroke.length - 1) ∧
      ∀ i : ℕ, i < stroke.length - 1 →
        (stroke_segments stroke).getD (2 * i) default = stroke.getD i default ∧
        (stroke_segments stroke).getD (2 * i + 1) default = stroke.getD (i + 1) default) ∧
    (∀ (actions : List Action) (cur : List Vertex),
      update_vertex_batch (actions ++ [Action.stroke stroke]) cur =
        update_vertex_batch actions [] ++ stroke_segments stroke ++ stroke_segments cur) := by
  refine ⟨?_, ?_, ?_⟩
  · intro h
    rw [stroke_segments, if_neg (by omega)]
  · intro h
    refine ⟨stroke_segments_length_ge stroke h, ?_⟩
    intro i hi
    rw [stroke_segments, if_pos h]
    exact pairs_flatMap_getD _ _ _ i hi
  · intro actions cur
    simp [update_vertex_batch, List.flatMap_append, stroke_segments, List.append_assoc]

/-- Claim C7 witness: a three-point stroke contributes exactly two
segment pairs, with the middle vertex duplicated. -/
theorem C7_witness :
    2 ≤ ([⟨(0, 0), (0, 0, 0, 1)⟩, ⟨(1, 0), (0, 0, 0, 1)⟩,
          ⟨(2, 0), (0, 0, 0, 1)⟩] : List Vertex).length ∧
    (stroke_segments [⟨(0, 0), (0, 0, 0, 1)⟩, ⟨(1, 0), (0, 0, 0, 1)⟩,
          ⟨(2, 0), (0, 0, 0, 1)⟩]).length = 4 :=
  ⟨by norm_num,
   ((C7_stroke_segment_pairs [⟨(0, 0), (0, 0, 0, 1)⟩, ⟨(1, 0), (0, 0, 0, 1)⟩,
      ⟨(2, 0), (0, 0, 0, 1)⟩]).2.1 (by norm_num)).1⟩

/-- Claim C8: a right-button-down is treated as a double-click exactly
when a previous right-click exists, the elapsed time since it is at most
500 ms. and the squared distance from it is at most 25 px squared; with
no prior click history the detection defaults to false. -/
theorem C8_double_click_detection :
    (∀ (lt : Option ℚ) (lp : Option Pos) (now : ℚ) (position : Pos),
      double_click_detected lt lp now position = true ↔
        ∃ t p, lt = some t ∧ lp = some p ∧
          now - t ≤ DOUBLE_CLICK_THRESHOLD ∧
          (position.1 - p.1) * (position.1 - p.1) +
            (position.2 - p.2) * (position.2 - p.2) ≤
            DOUBLE_CLICK_DISTANCE * DOUBLE_CLICK_DISTANCE) ∧
    (∀ (lp : Option Pos) (now : ℚ) (position : Pos),
      double_click_detected none lp now position = false) ∧
    (∀ (lt : Option ℚ) (now : ℚ) (position : Pos),
      double_click_detected lt none now position = false) := by
  refine ⟨?_, ?_, ?_⟩
  · intro lt lp now position
    cases lt with
    | none => simp [double_click_detected]
    | some t =>
      cases lp with
      | none => simp [double_click_detected]
      | some p =>
        by_cases h : now - t ≤ DOUBLE_CLICK_THRESHOLD
        · simp [double_click_detected, h]
          intro _
          linarith
        · simp [double_click_detected, h]
          intro h2
          linarith
  · intro lp now position
    simp [double_click_detected]
  · intro lt now position
    cases lt <;> simp [double_click_detected]

/-- Claim C8 witness: a click 100 ms after and at distance 5 px from the
previous one is detected as a double-click. -/
theorem C8_witness :
    double_click_detected (some 0) (some ((0 : ℚ), (0 : ℚ))) 100 (3, 4) = true :=
  ((C8_double_click_detection).1 (some 0) (some ((0 : ℚ), (0 : ℚ))) 100 (3, 4)).mpr
    ⟨0, ((0 : ℚ), (0 : ℚ)), rfl, rfl, by norm_num [DOUBLE_CLICK_THRESHOLD],
     by norm_num [DOUBLE_CLICK_DISTANCE]⟩

/-- Claim C10: on every keyboard key release with a non-empty in-progress
shape list, a rectangle built from its first and last points is pushed to
both the shapes collection and the action log, and the list is cleared,
regardless of which key was released. -/
theorem C10_key_release_commits_shape (s : WindowState) (key : Key)
    (f l : Vertex) (hf : s.shape_positions.head? = some f)
    (hl : s.shape_positions.getLast? = some l) :
    input s (.keyboardInput false key) =
      some { s with pressed_keys := s.pressed_keys.erase key,
                    create_rect := false,
                    actions := s.actions ++
                      [Action.shapes ⟨f.position, l.position, s.current_color⟩],
                    shapes := s.shapes ++ [⟨f.position, l.position, s.current_color⟩],
                    shape_positions := [] } := by
  simp [input, handle_key_release, commit_shape, hf, hl]

/-- Claim C10 witness: releasing the Enter key, a key unrelated to the
shape modifier, with a one-point shape list commits the degenerate
rectangle and clears the list. -/
theorem C10_witness :
    input ⟨∅, 16, 0, [], [], (800, 600), false, [], [], (0, 0, 0, 1), false,
           [⟨(1, 2), (0, 0, 0, 1)⟩], [], true, false, 0, none, none, none⟩
      (.keyboardInput false .enter) =
      some ⟨∅, 16, 0, [Action.shapes ⟨(1, 2), (1, 2), (0, 0, 0, 1)⟩],
            [], (800, 600), false, [], [], (0, 0, 0, 1), false,
            [], [⟨(1, 2), (1, 2), (0, 0, 0, 1)⟩], false, false, 0, none, none, none⟩ := by
  rw [C10_key_release_commits_shape
      ⟨∅, 16, 0, [], [], (800, 600), false, [], [], (0, 0, 0, 1), false,
       [⟨(1, 2), (0, 0, 0, 1)⟩], [], true, false, 0, none, none, none⟩
      .enter ⟨(1, 2), (0, 0, 0, 1)⟩ ⟨(1, 2), (0, 0, 0, 1)⟩ rfl rfl]
  simp


set_option maxRecDepth 2048

/-- Claim C5: during a text-edit session, Backspace removes exactly one
character, counted in characters rather than raw bytes, from the targeted
text when its content is non-empty, and is a no-op leaving the text
unchanged, with no underflow and no panic, when the content is already
empty. -/
theorem C5_backspace_one_char (s : WindowState) (i : ℕ) (t : TextEntries)
    (hsession : s.start_typing = true ∨ s.editing_text_index.isSome = true)
    (hidx : i = match s.editing_text_index with
                | some j => j
                | none => s.texts.length - 1)
    (ht : s.texts[i]? = some t)
    (hp : t.pending = true) :
    ∃ s', input s (.keyboardInput true .backspace) = some s' ∧
      s'.texts.length = s.texts.length ∧
      s'.texts[i]? = some { t with text := String.mk t.text.toList.dropLast } ∧
      (∀ j, j ≠ i → s'.texts[j]? = s.texts[j]?) ∧
      (0 < t.text.length →
        (String.mk t.text.toList.dropLast).length = t.text.length - 1) ∧
      (t.text.length = 0 → s'.texts = s.texts) ∧
      s'.strokes = s.strokes ∧ s'.actions = s.actions ∧ s'.shapes = s.shapes ∧
      s'.pressed_keys = insert Key.backspace s.pressed_keys := by
  obtain ⟨hi, -⟩ := List.getElem?_eq_some.mp ht
  obtain ⟨tpos, tcol, ttext, tpend, tbounds, tfs⟩ := t
  simp only at hp hi ht
  subst hp
  obtain ⟨pk, fsz, lcp, acts, texts, sz, mpr, strokes, cstroke, cc, st, sp, shps,
    cr, cv, ctm, lct, lcpos, eti⟩ := s
  simp only at hsession hidx ht hi
  have hdrop : string_drop_last_char ttext = String.mk ttext.toList.dropLast := by
    rw [string_drop_last_char, List.dropLast_eq_take]
  have hred : input ⟨pk, fsz, lcp, acts, texts, sz, mpr, strokes, cstroke, cc, st, sp, shps,
        cr, cv, ctm, lct, lcpos, eti⟩ (.keyboardInput true .backspace) =
      handle_backspace ⟨insert Key.backspace pk, fsz, lcp, acts, texts, sz, mpr, strokes,
        cstroke, cc, st, sp, shps, cr, cv, ctm, lct, lcpos, eti⟩ := by
    rcases hsession with h | h
    · simp [input, handle_key_press, h]
    · simp [input, handle_key_press, h]
  rw [hred]
  cases eti with
  | some j =>
    simp only at hidx
    subst hidx
    by_cases hlen0 : ttext.toList.length = 0
    · have htxt : ttext = "" := by cases ttext; simp_all
      subst htxt
      have hb : handle_backspace ⟨insert Key.backspace pk, fsz, lcp, acts, texts, sz, mpr,
            strokes, cstroke, cc, st, sp, shps, cr, cv, ctm, lct, lcpos, some i⟩ =
          some ⟨insert Key.backspace pk, fsz, lcp, acts, texts, sz, mpr,
            strokes, cstroke, cc, st, sp, shps, cr, cv, ctm, lct, lcpos, some i⟩ := by
        simp [handle_backspace, ht]
      refine ⟨_, hb, rfl, by simpa using ht, by intro j hj; rfl, ?_, by intro _; rfl,
        rfl, rfl, rfl, rfl⟩
      intro h2
      exact absurd h2 (Nat.lt_irrefl 0)
    · have h0 : 0 < ttext.toList.length := by omega
      have hb : handle_backspace ⟨insert Key.backspace pk, fsz, lcp, acts, texts, sz, mpr,
            strokes, cstroke, cc, st, sp, shps, cr, cv, ctm, lct, lcpos, some i⟩ =
          some ⟨insert Key.backspace pk, fsz, lcp, acts,
            texts.set i ⟨tpos, tcol, String.mk ttext.toList.dropLast, true, tbounds, tfs⟩,
            sz, mpr, strokes, cstroke, cc, st, sp, shps, cr, cv, ctm, lct, lcpos, some i⟩ := by
        simp only [handle_backspace, ht, hdrop]
        rw [if_pos ⟨trivial, h0⟩]
      refine ⟨_, hb, by simp, ?_, ?_, by intro _; exact List.length_dropLast _, ?_,
        rfl, rfl, rfl, rfl⟩
      · simp [List.getElem?_set_self, hi]
      · intro j hj
        simp [List.getElem?_set_ne (fun h => hj h.symm)]
      · intro hc
        exfalso
        have hc2 : ttext.toList.length = 0 := hc
        omega
  | none =>
    simp only at hidx
    subst hidx
    have hlast : texts.getLast? = some ⟨tpos, tcol, ttext, true, tbounds, tfs⟩ := by
      rw [List.getLast?_eq_getElem?]
      exact ht
    have hdl : texts.dropLast.length = texts.length - 1 := List.length_dropLast texts
    by_cases hlen0 : ttext.toList.length = 0
    · have htxt : ttext = "" := by cases ttext; simp_all
      subst htxt
      have hb : handle_backspace ⟨insert Key.backspace pk, fsz, lcp, acts, texts, sz, mpr,
            strokes, cstroke, cc, st, sp, shps, cr, cv, ctm, lct, lcpos, none⟩ =
          some ⟨insert Key.backspace pk, fsz, lcp, acts, texts, sz, mpr,
            strokes, cstroke, cc, st, sp, shps, cr, cv, ctm, lct, lcpos, none⟩ := by
        simp [handle_backspace, hlast]
      refine ⟨_, hb, rfl, by simpa using ht, by intro j hj; rfl, ?_, by intro _; rfl,
        rfl, rfl, rfl, rfl⟩
      intro h2
      exact absurd h2 (Nat.lt_irrefl 0)
    · have h0 : 0 < ttext.toList.length := by omega
      have hb : handle_backspace ⟨insert Key.backspace pk, fsz, lcp, acts, texts, sz, mpr,
            strokes, cstroke, cc, st, sp, shps, cr, cv, ctm, lct, lcpos, none⟩ =
          some ⟨insert Key.backspace pk, fsz, lcp, acts,
            texts.dropLast ++ [⟨tpos, tcol, String.mk ttext.toList.dropLast, true, tbounds, tfs⟩],
            sz, mpr, strokes, cstroke, cc, st, sp, shps, cr, cv, ctm, lct, lcpos, none⟩ := by
        simp only [handle_backspace, hlast, hdrop]
        rw [if_pos ⟨trivial, h0⟩]
      refine ⟨_, hb, by simp; omega, ?_, ?_, by intro _; exact List.length_dropLast _, ?_,
        rfl, rfl, rfl, rfl⟩
      · show (texts.dropLast ++ [_])[texts.length - 1]? = _
        rw [List.getElem?_append_right (by omega)]
        simp [hdl]
      · intro j hj
        show (texts.dropLast ++ [_])[j]? = _
        rcases Nat.lt_or_ge j (texts.length - 1) with hj' | hj'
        · rw [List.getElem?_append_left (by omega), List.dropLast_eq_take, List.getElem?_take,
            if_pos hj']
        · have hj2 : texts.length ≤ j := by omega
          rw [List.getElem?_eq_none (by simp [hdl]; omega), List.getElem?_eq_none hj2]
      · intro hc
        exfalso
        have hc2 : ttext.toList.length = 0 := hc
        omega

/-- Claim C5 witness: backspacing the pending text ab leaves exactly the
single character a. -/
theorem C5_witness :
    ∃ s', input ⟨∅, 16, 0, [], [⟨0, (0, 0, 0, 255), "ab", true, ⟨0, 0, 0, 0⟩, 16⟩],
        (800, 600), false, [], [], (0, 0, 0, 1), true, [], [], false, false, 0,
        none, none, none⟩ (.keyboardInput true .backspace) = some s' ∧
      s'.texts.length = 1 ∧
      s'.texts[0]? = some ⟨0, (0, 0, 0, 255), "a", true, ⟨0, 0, 0, 0⟩, 16⟩ := by
  obtain ⟨s', h1, h2, h3, -⟩ :=
    C5_backspace_one_char
      ⟨∅, 16, 0, [], [⟨0, (0, 0, 0, 255), "ab", true, ⟨0, 0, 0, 0⟩, 16⟩],
        (800, 600), false, [], [], (0, 0, 0, 1), true, [], [], false, false, 0,
        none, none, none⟩ 0
      ⟨0, (0, 0, 0, 255), "ab", true, ⟨0, 0, 0, 0⟩, 16⟩
      (Or.inl rfl) rfl rfl rfl
  exact ⟨s', h1, h2, h3⟩


/-! ### Pressed-keys projections of the keyboard sub-handlers -/

lemma append_char_to_last_pressed_keys (s : WindowState) (c : String) :
    (append_char_to_last s c).pressed_keys = s.pressed_keys := by
  rw [append_char_to_last]
  split
  · split <;> rfl
  · rfl

lemma handle_enter_commit_pressed_keys (s : WindowState) :
    (handle_enter_commit s).pressed_keys = s.pressed_keys := by
  rw [handle_enter_commit]
  split <;> rfl

lemma handle_delete_pressed_keys (s : WindowState) :
    (handle_delete s).pressed_keys = s.pressed_keys := by
  rw [handle_delete]
  split
  · split <;> rfl
  · split <;> rfl

lemma handle_backspace_pressed_keys (s : WindowState) (s' : WindowState)
    (h : handle_backspace s = some s') : s'.pressed_keys = s.pressed_keys := by
  rw [handle_backspace] at h
  split at h
  · split at h
    · exact Option.noConfusion h
    · split at h <;> (obtain rfl := Option.some.inj h; rfl)
  · split at h
    · split at h <;> (obtain rfl := Option.some.inj h; rfl)
    · obtain rfl := Option.some.inj h
      rfl

lemma undo_pressed_keys (s : WindowState) :
    (undo s).pressed_keys = s.pressed_keys := by
  rw [undo]
  split
  · split <;> rfl
  · rfl

lemma commit_shape_pressed_keys (s : WindowState) :
    (commit_shape s).pressed_keys = s.pressed_keys := by
  rw [commit_shape]
  split <;> rfl

lemma handle_key_press_pressed_keys (s : WindowState) (key : Key) (s' : WindowState)
    (h : handle_key_press s key = some s') :
    s'.pressed_keys = insert key s.pressed_keys := by
  simp only [handle_key_press] at h
  split at h
  · cases key <;> simp only at h <;>
      first
        | exact handle_backspace_pressed_keys _ _ h
        | (obtain rfl := Option.some.inj h
           simp [append_char_to_last_pressed_keys, handle_enter_commit_pressed_keys,
             handle_delete_pressed_keys])
  · split at h
    · obtain rfl := Option.some.inj h
      rw [undo_pressed_keys]
    · obtain rfl := Option.some.inj h
      rfl

/-- Claim C9 counterexample: after pressing Control and then losing focus,
the held-keys set still contains Control — it is not cleared on focus
loss, so stale entries survive focus changes. -/
theorem C9_cex_focus_loss_keeps_keys :
    (Option.map (fun s => s.pressed_keys)
      (runEvents (initState 800 600) [.keyboardInput true .control, .focused false 0]))
    = some {Key.control} := by
  have h1 : input (initState 800 600) (.keyboardInput true .control) =
      some ⟨{Key.control}, 16, 0, [], [], (800, 600), false, [], [], (0, 0, 0, 1),
        false, [], [], false, false, 0, none, none, none⟩ := by
    simp [input, handle_key_press, initState]
  have h2 : input (⟨{Key.control}, 16, 0, [], [], (800, 600), false, [], [], (0, 0, 0, 1),
        false, [], [], false, false, 0, none, none, none⟩ : WindowState) (.focused false 0) =
      some ⟨{Key.control}, 16, 0, [], [], (800, 600), false, [], [], (0, 0, 0, 1),
        false, [], [], false, false, 0, none, none, none⟩ := by
    simp [input, handle_focused]
  simp [runEvents, h1, h2]

/-- Claim C9 (amended): the held-keys set satisfies the
insert-on-press/remove-on-release contract on every keyboard event, but
focus-change events leave the set unchanged: it is not cleared on focus
loss, so stale entries can survive focus changes. -/
theorem C9_amended_held_keys_contract :
    (∀ (s s' : WindowState) (key : Key),
      input s (.keyboardInput true key) = some s' →
        s'.pressed_keys = insert key s.pressed_keys) ∧
    (∀ (s s' : WindowState) (key : Key),
      input s (.keyboardInput false key) = some s' →
        s'.pressed_keys = s.pressed_keys.erase key) ∧
    (∀ (s s' : WindowState) (f : Bool) (now : ℚ),
      input s (.focused f now) = some s' → s'.pressed_keys = s.pressed_keys) := by
  refine ⟨?_, ?_, ?_⟩
  · intro s s' key h
    simp only [input, if_pos] at h
    exact handle_key_press_pressed_keys s key s' h
  · intro s s' key h
    simp only [input, if_neg] at h
    obtain rfl := Option.some.inj h
    rw [handle_key_release, commit_shape_pressed_keys]
  · intro s s' f now h
    obtain rfl := Option.some.inj h
    rw [handle_focused]
    split <;> rfl

/-- Claim C9 witness: pressing Control from the initial state yields a
held-keys set equal to the singleton Control set. -/
theorem C9_witness :
    ∃ s', input (initState 800 600) (.keyboardInput true .control) = some s' ∧
      s'.pressed_keys = insert Key.control (initState 800 600).pressed_keys := by
  obtain ⟨s', hs⟩ : ∃ s', input (initState 800 600) (.keyboardInput true .control) = some s' := by
    simp [input, handle_key_press, initState]
  exact ⟨s', hs, C9_amended_held_keys_contract.1 (initState 800 600) s' .control hs⟩


lemma concat_last_eq {α : Type} (l1 l2 : List α) (a b : α)
    (h : l1 ++ [a] = l2 ++ [b]) : a = b := by
  have h2 := congrArg List.getLast? h
  rw [List.getLast?_concat, List.getLast?_concat] at h2
  exact Option.some.inj h2

/-- Claim C4 counterexample: with one committed stroke in the log and a
text-edit session active, pressing Ctrl+Z does not pop the action log —
the z is appended to the pending text instead.  The scenario is driven
from the initial state: draw a stroke, right-click to create a text,
hold Control, press z; the log still has length 1 and the text is z. -/
theorem C4_cex_undo_unreachable_while_editing :
    (Option.map (fun s => (s.actions.length, s.start_typing, s.texts.map (fun t => t.text)))
      (runEvents (initState 800 600)
        [.mouseInput true .left 0, .cursorMoved 0, .mouseInput false .left 0,
         .mouseInput true .right 0, .keyboardInput true .control,
         .keyboardInput true (.character "z")]))
    = some (1, true, ["z"]) := by
  have h1 : input (initState 800 600) (.mouseInput true .left 0) =
      some ⟨∅, 16, 0, [], [], (800, 600), true, [], [], (0, 0, 0, 1), false,
        [], [], false, false, 0, none, none, none⟩ := by
    simp [input, handle_mouse_input, handle_left_press, initState]
  have h2 : input (⟨∅, 16, 0, [], [], (800, 600), true, [], [], (0, 0, 0, 1), false,
        [], [], false, false, 0, none, none, none⟩ : WindowState) (.cursorMoved 0) =
      some ⟨∅, 16, 0, [], [], (800, 600), true, [], [⟨(-1, 1), (0, 0, 0, 1)⟩], (0, 0, 0, 1),
        false, [], [], false, false, 0, none, none, none⟩ := by
    norm_num [input, handle_cursor_moved]
  have h3 : input (⟨∅, 16, 0, [], [], (800, 600), true, [], [⟨(-1, 1), (0, 0, 0, 1)⟩],
        (0, 0, 0, 1), false, [], [], false, false, 0, none, none, none⟩ : WindowState)
      (.mouseInput false .left 0) =
      some ⟨∅, 16, 0, [Action.stroke [⟨(-1, 1), (0, 0, 0, 1)⟩]], [], (800, 600), false,
        [[⟨(-1, 1), (0, 0, 0, 1)⟩]], [], (0, 0, 0, 1), false, [], [], false, false, 0,
        none, none, none⟩ := by
    simp [input, handle_mouse_input, handle_left_release, commit_shape]
  have h4 : input (⟨∅, 16, 0, [Action.stroke [⟨(-1, 1), (0, 0, 0, 1)⟩]], [], (800, 600), false,
        [[⟨(-1, 1), (0, 0, 0, 1)⟩]], [], (0, 0, 0, 1), false, [], [], false, false, 0,
        none, none, none⟩ : WindowState) (.mouseInput true .right 0) =
      some ⟨∅, 16, 0, [Action.stroke [⟨(-1, 1), (0, 0, 0, 1)⟩]],
        [⟨0, (0, 0, 0, 255), "", true, ⟨0, 0, 0, 0⟩, 16⟩], (800, 600), false,
        [[⟨(-1, 1), (0, 0, 0, 1)⟩]], [], (0, 0, 0, 1), true, [], [], false, false, 0,
        some 0, some 0, none⟩ := by
    simp [input, handle_mouse_input, handle_right_press, double_click_detected,
      hit_text_index, commit_last_text, create_new_text, TextEntries.null, normalized_to_rgba]
  have h5 : input (⟨∅, 16, 0, [Action.stroke [⟨(-1, 1), (0, 0, 0, 1)⟩]],
        [⟨0, (0, 0, 0, 255), "", true, ⟨0, 0, 0, 0⟩, 16⟩], (800, 600), false,
        [[⟨(-1, 1), (0, 0, 0, 1)⟩]], [], (0, 0, 0, 1), true, [], [], false, false, 0,
        some 0, some 0, none⟩ : WindowState) (.keyboardInput true .control) =
      some ⟨{Key.control}, 16, 0, [Action.stroke [⟨(-1, 1), (0, 0, 0, 1)⟩]],
        [⟨0, (0, 0, 0, 255), "", true, ⟨0, 0, 0, 0⟩, 16⟩], (800, 600), false,
        [[⟨(-1, 1), (0, 0, 0, 1)⟩]], [], (0, 0, 0, 1), true, [], [], false, false, 0,
        some 0, some 0, none⟩ := by
    simp [input, handle_key_press, append_char_to_last]
  have h6 : input (⟨{Key.control}, 16, 0, [Action.stroke [⟨(-1, 1), (0, 0, 0, 1)⟩]],
        [⟨0, (0, 0, 0, 255), "", true, ⟨0, 0, 0, 0⟩, 16⟩], (800, 600), false,
        [[⟨(-1, 1), (0, 0, 0, 1)⟩]], [], (0, 0, 0, 1), true, [], [], false, false, 0,
        some 0, some 0, none⟩ : WindowState) (.keyboardInput true (.character "z")) =
      some ⟨{Key.character "z", Key.control}, 16, 0,
        [Action.stroke [⟨(-1, 1), (0, 0, 0, 1)⟩]],
        [⟨0, (0, 0, 0, 255), "z", true, ⟨0, 0, 0, 0⟩, 16⟩], (800, 600), false,
        [[⟨(-1, 1), (0, 0, 0, 1)⟩]], [], (0, 0, 0, 1), true, [], [], false, false, 0,
        some 0, some 0, none⟩ := by
    simp [input, handle_key_press, append_char_to_last]
  simp [runEvents, h1, h2, h3, h4, h5, h6]

/-- Claim C4 (amended): in any state outside a text-edit session
(start_typing false and no editing target), pressing z with Control in
the held-keys set pops the last Action from the log and, dispatching on
its variant, pops the last element of the matching per-type collection;
when the log is empty it is a no-op that leaves all collections
unchanged and never errors.  Inside a text-edit session the chord is
unreachable and the z is appended to the pending text instead. -/
theorem C4_amended_undo_outside_editing (s : WindowState)
    (h1 : s.start_typing = false) (h2 : s.editing_text_index = none)
    (h3 : Key.control ∈ s.pressed_keys) :
    ∃ s', input s (.keyboardInput true (.character "z")) = some s' ∧
      s'.pressed_keys = insert (Key.character "z") s.pressed_keys ∧
      s'.actions = s.actions.dropLast ∧
      (s.actions = [] →
        s'.strokes = s.strokes ∧ s'.texts = s.texts ∧ s'.shapes = s.shapes) ∧
      (∀ acts l, s.actions = acts ++ [Action.stroke l] →
        s'.strokes = s.strokes.dropLast ∧ s'.texts = s.texts ∧ s'.shapes = s.shapes) ∧
      (∀ acts t, s.actions = acts ++ [Action.text t] →
        s'.texts = s.texts.dropLast ∧ s'.strokes = s.strokes ∧ s'.shapes = s.shapes) ∧
      (∀ acts r, s.actions = acts ++ [Action.shapes r] →
        s'.shapes = s.shapes.dropLast ∧ s'.strokes = s.strokes ∧ s'.texts = s.texts) := by
  have hred : input s (.keyboardInput true (.character "z")) =
      some (undo { s with pressed_keys := insert (Key.character "z") s.pressed_keys }) := by
    simp [input, handle_key_press, h1, h2, h3]
  refine ⟨_, hred, by rw [undo_pressed_keys], ?_, ?_, ?_, ?_, ?_⟩
  case _ =>
    rcases List.eq_nil_or_concat s.actions with hnil | ⟨acts0, a0, hconcat⟩
    · rw [undo, hnil]
      simp [hnil]
    · rw [List.concat_eq_append] at hconcat
      have hg : ({ s with pressed_keys := insert (Key.character "z") s.pressed_keys} :
          WindowState).actions.getLast? = some a0 := by
        simp [hconcat, List.getLast?_concat]
      rw [undo, hg]
      cases a0 <;> simp [hconcat]
  all_goals
    rcases List.eq_nil_or_concat s.actions with hnil | ⟨acts0, a0, hconcat⟩
  · intro _
    rw [undo, hnil]
    simp [hnil]
  · rw [List.concat_eq_append] at hconcat
    intro hemp
    rw [hemp] at hconcat
    exact absurd hconcat.symm (by simp)
  · intro acts l heq
    rw [hnil] at heq
    exact absurd heq.symm (by simp)
  · rw [List.concat_eq_append] at hconcat
    intro acts l heq
    have hlast := concat_last_eq _ _ _ _ (hconcat.symm.trans heq)
    subst hlast
    have hg : ({ s with pressed_keys := insert (Key.character "z") s.pressed_keys} :
        WindowState).actions.getLast? = some (Action.stroke l) := by
      simp [hconcat, List.getLast?_concat]
    rw [undo, hg]
    simp
  · intro acts t heq
    rw [hnil] at heq
    exact absurd heq.symm (by simp)
  · rw [List.concat_eq_append] at hconcat
    intro acts t heq
    have hlast := concat_last_eq _ _ _ _ (hconcat.symm.trans heq)
    subst hlast
    have hg : ({ s with pressed_keys := insert (Key.character "z") s.pressed_keys} :
        WindowState).actions.getLast? = some (Action.text t) := by
      simp [hconcat, List.getLast?_concat]
    rw [undo, hg]
    simp
  · intro acts r heq
    rw [hnil] at heq
    exact absurd heq.symm (by simp)
  · rw [List.concat_eq_append] at hconcat
    intro acts r heq
    have hlast := concat_last_eq _ _ _ _ (hconcat.symm.trans heq)
    subst hlast
    have hg : ({ s with pressed_keys := insert (Key.character "z") s.pressed_keys} :
        WindowState).actions.getLast? = some (Action.shapes r) := by
      simp [hconcat, List.getLast?_concat]
    rw [undo, hg]
    simp

/-- Claim C4 witness: evaluation of the amended undo at a concrete state
holding one stroke action with Control held — the log is popped together
with the strokes collection. -/
theorem C4_witness :
    ∃ s', input ⟨{Key.control}, 16, 0, [Action.stroke [⟨(1, 1), (0, 0, 0, 1)⟩]], [],
        (800, 600), false, [[⟨(1, 1), (0, 0, 0, 1)⟩]], [], (0, 0, 0, 1), false, [], [],
        false, false, 0, none, none, none⟩ (.keyboardInput true (.character "z")) =
      some s' ∧ s'.actions = [] ∧ s'.strokes = [] := by
  obtain ⟨s', hs, -, hacts, -, hstrokes, -⟩ :=
    C4_amended_undo_outside_editing
      ⟨{Key.control}, 16, 0, [Action.stroke [⟨(1, 1), (0, 0, 0, 1)⟩]], [],
        (800, 600), false, [[⟨(1, 1), (0, 0, 0, 1)⟩]], [], (0, 0, 0, 1), false, [], [],
        false, false, 0, none, none, none⟩ rfl rfl (Finset.mem_singleton_self _)
  refine ⟨s', hs, by simpa using hacts, ?_⟩
  obtain ⟨hstr, -, -⟩ := hstrokes [] [⟨(1, 1), (0, 0, 0, 1)⟩] rfl
  simpa using hstr


lemma z_press_undo (s : WindowState) (h1 : s.start_typing = false)
    (h2 : s.editing_text_index = none) (h3 : Key.control ∈ s.pressed_keys) :
    input s (.keyboardInput true (.character "z")) =
      some (undo { s with pressed_keys := insert (Key.character "z") s.pressed_keys }) := by
  simp [input, handle_key_press, h1, h2, h3]

lemma undo_presses_strokes_aux :
    ∀ (L : List (List Vertex)) (s : WindowState),
      s.strokes = L → s.start_typing = false → s.editing_text_index = none →
      Key.control ∈ s.pressed_keys → s.shapes = [] → s.texts = [] →
      s.actions = L.map Action.stroke →
      ∃ s', undo_presses L.length s = some s' ∧
        s'.strokes = [] ∧ s'.actions = [] ∧ s'.shapes = [] ∧ s'.texts = [] := by
  intro L
  induction L using List.reverseRecOn with
  | nil =>
    intro s hs h1 h2 h3 h4 h5 h6
    exact ⟨s, by simp [undo_presses], hs, by simpa using h6, h4, h5⟩
  | append_singleton L a ih =>
    intro s hs h1 h2 h3 h4 h5 h6
    have hact : s.actions = L.map Action.stroke ++ [Action.stroke a] := by
      rw [h6, List.map_append, List.map_singleton]
    have hstep := z_press_undo s h1 h2 h3
    have hg : ({ s with pressed_keys := insert (Key.character "z") s.pressed_keys } :
        WindowState).actions.getLast? = some (Action.stroke a) := by
      simp [hact, List.getLast?_concat]
    have hstrokes2 : (undo { s with
        pressed_keys := insert (Key.character "z") s.pressed_keys }).strokes = L := by
      rw [undo, hg]
      simp [hs]
    have hactions2 : (undo { s with
        pressed_keys := insert (Key.character "z") s.pressed_keys }).actions
        = L.map Action.stroke := by
      rw [undo, hg]
      simp [hact]
    have htyping2 : (undo { s with
        pressed_keys := insert (Key.character "z") s.pressed_keys }).start_typing = false := by
      rw [undo, hg]
      simpa using h1
    have hediting2 : (undo { s with
        pressed_keys := insert (Key.character "z") s.pressed_keys }).editing_text_index
        = none := by
      rw [undo, hg]
      simpa using h2
    have hctrl2 : Key.control ∈ (undo { s with
        pressed_keys := insert (Key.character "z") s.pressed_keys }).pressed_keys := by
      rw [undo_pressed_keys]
      exact Finset.mem_insert_of_mem h3
    have hshapes2 : (undo { s with
        pressed_keys := insert (Key.character "z") s.pressed_keys }).shapes = [] := by
      rw [undo, hg]
      simpa using h4
    have htexts2 : (undo { s with
        pressed_keys := insert (Key.character "z") s.pressed_keys }).texts = [] := by
      rw [undo, hg]
      simpa using h5
    obtain ⟨s', hrun, hc1, hc2, hc3, hc4⟩ :=
      ih _ hstrokes2 htyping2 hediting2 hctrl2 hshapes2 htexts2 hactions2
    refine ⟨s', ?_, hc1, hc2, hc3, hc4⟩
    have hlen : (L ++ [a]).length = L.length + 1 := by simp
    rw [hlen, undo_presses, hstep]
    exact hrun

/-- Claim C3: for every sequence of N fully committed strokes with no
shapes and no texts, performing the undo key chord N times returns the
scene model to the empty state with an empty strokes collection and an
empty action log. -/
theorem C3_n_undos_empty_scene (s : WindowState)
    (h1 : s.start_typing = false) (h2 : s.editing_text_index = none)
    (h3 : Key.control ∈ s.pressed_keys)
    (h4 : s.shapes = []) (h5 : s.texts = [])
    (h6 : s.actions = s.strokes.map Action.stroke) :
    ∃ s', undo_presses s.strokes.length s = some s' ∧
      s'.strokes = [] ∧ s'.actions = [] ∧ s'.shapes = [] ∧ s'.texts = [] :=
  undo_presses_strokes_aux s.strokes s rfl h1 h2 h3 h4 h5 h6

/-- Claim C3 witness: two committed strokes, then two undo chords, leave
empty strokes and an empty log. -/
theorem C3_witness :
    ∃ s', undo_presses 2 ⟨{Key.control}, 16, 0,
        [Action.stroke [⟨(1, 1), (0, 0, 0, 1)⟩], Action.stroke [⟨(2, 2), (0, 0, 0, 1)⟩]],
        [], (800, 600), false,
        [[⟨(1, 1), (0, 0, 0, 1)⟩], [⟨(2, 2), (0, 0, 0, 1)⟩]], [], (0, 0, 0, 1), false,
        [], [], false, false, 0, none, none, none⟩ = some s' ∧
      s'.strokes = [] ∧ s'.actions = [] ∧ s'.shapes = [] ∧ s'.texts = [] :=
  C3_n_undos_empty_scene
    ⟨{Key.control}, 16, 0,
      [Action.stroke [⟨(1, 1), (0, 0, 0, 1)⟩], Action.stroke [⟨(2, 2), (0, 0, 0, 1)⟩]],
      [], (800, 600), false,
      [[⟨(1, 1), (0, 0, 0, 1)⟩], [⟨(2, 2), (0, 0, 0, 1)⟩]], [], (0, 0, 0, 1), false,
      [], [], false, false, 0, none, none, none⟩
    rfl rfl (Finset.mem_singleton_self _) rfl rfl rfl


/-- Claim C2 counterexample: from the initial state, a right click at the
origin creates a text entry; a second right click 100 ms later is a
double-click hit on that entry (index 0) and enters edit mode targeting
it — but the handler also appends a second, empty pending entry, and the
following character press appends the a to that new last entry, not to
the targeted index 0, whose content stays empty. -/
theorem C2_cex_char_goes_to_new_entry :
    (Option.map (fun s => (s.editing_text_index, s.texts.map (fun t => t.text)))
      (runEvents (initState 800 600)
        [.mouseInput true .right 0, .mouseInput true .right 100,
         .keyboardInput true (.character "a")]))
    = some (some 0, ["", "a"]) := by
  have h1 : input (initState 800 600) (.mouseInput true .right 0) =
      some ⟨∅, 16, 0, [], [⟨0, (0,0,0,255), "", true, ⟨0,0,0,0⟩, 16⟩], (800,600), false,
            [], [], (0,0,0,1), true, [], [], false, false, 0, some 0, some 0, none⟩ := by
    simp [input, handle_mouse_input, handle_right_press, double_click_detected,
      hit_text_index, commit_last_text, create_new_text, initState, TextEntries.null,
      normalized_to_rgba]
  have h2 : input
      (⟨∅, 16, 0, [], [⟨0, (0,0,0,255), "", true, ⟨0,0,0,0⟩, 16⟩], (800,600), false,
        [], [], (0,0,0,1), true, [], [], false, false, 0, some 0, some 0, none⟩ : WindowState)
      (.mouseInput true .right 100) =
      some ⟨∅, 16, 0, [], [⟨0, (0,0,0,255), "", true, ⟨0,0,0,0⟩, 16⟩,
                           ⟨0, (0,0,0,255), "", true, ⟨0,0,0,0⟩, 16⟩], (800,600), false,
            [], [], (0,0,0,1), true, [], [], false, false, 0, some 100, some 0, some 0⟩ := by
    have hdc : double_click_detected (some 0) (some (0 : ℚ × ℚ)) 100 (0 : ℚ × ℚ) = true := by
      norm_num [double_click_detected, DOUBLE_CLICK_THRESHOLD, DOUBLE_CLICK_DISTANCE]
    simp [input, handle_mouse_input, handle_right_press, hdc, hit_text_index, in_bounds,
      commit_last_text, create_new_text, TextEntries.null, normalized_to_rgba,
      List.findIdx?]
  have h3 : input
      (⟨∅, 16, 0, [], [⟨0, (0,0,0,255), "", true, ⟨0,0,0,0⟩, 16⟩,
                       ⟨0, (0,0,0,255), "", true, ⟨0,0,0,0⟩, 16⟩], (800,600), false,
        [], [], (0,0,0,1), true, [], [], false, false, 0, some 100, some 0, some 0⟩ : WindowState)
      (.keyboardInput true (.character "a")) =
      some ⟨{Key.character "a"}, 16, 0, [], [⟨0, (0,0,0,255), "", true, ⟨0,0,0,0⟩, 16⟩,
                       ⟨0, (0,0,0,255), "a", true, ⟨0,0,0,0⟩, 16⟩], (800,600), false,
            [], [], (0,0,0,1), true, [], [], false, false, 0, some 100, some 0, some 0⟩ := by
    simp [input, handle_key_press, append_char_to_last]
  simp [runEvents, h1, h2, h3]

lemma char_appends_to_last (s : WindowState) (c : String) (X : List TextEntries)
    (e : TextEntries) (hT : s.texts = X ++ [e]) (hp : e.pending = true)
    (hsess : s.start_typing = true) :
    ∃ s'', input s (.keyboardInput true (.character c)) = some s'' ∧
      s''.texts = X ++ [{ e with text := e.text ++ c }] := by
  have hlast : s.texts.getLast? = some e := by
    simp [hT, List.getLast?_concat]
  have heq : input s (.keyboardInput true (.character c)) =
      some { s with pressed_keys := insert (Key.character c) s.pressed_keys,
                    texts := X ++ [{ e with text := e.text ++ c }] } := by
    simp [input, handle_key_press, hsess, append_char_to_last, hlast, hp, hT,
      List.dropLast_concat]
  exact ⟨_, heq, rfl⟩

/-- Claim C2 (amended): on a right-button press detected as a double-click
whose position lies inside an existing text bounding box (first match in
collection order), the interpreter records that index as the edit target,
marks the targeted entry pending with its content intact, and sets
start_typing — but the same handler then also appends a new empty pending
text entry at the click position, and every subsequent character input
appends to that new last entry, leaving the targeted entry unchanged. -/
theorem C2_amended_double_click_hit (s : WindowState) (now : ℚ) (i : ℕ) (t : TextEntries)
    (hdc : double_click_detected s.last_click_time s.last_click_position now
      s.last_cursor_position = true)
    (hhit : hit_text_index s.texts s.last_cursor_position = some i)
    (ht : s.texts[i]? = some t) :
    ∃ s', input s (.mouseInput true .right now) = some s' ∧
      s'.editing_text_index = some i ∧
      s'.start_typing = true ∧
      s'.texts.length = s.texts.length + 1 ∧
      s'.texts[i]? = some { t with pending := true } ∧
      s'.texts.getLast? = some { TextEntries.null (normalized_to_rgba s.current_color)
        s.font_size with position := s.last_cursor_position } ∧
      ∀ c : String, ∃ s'', input s' (.keyboardInput true (.character c)) = some s'' ∧
        s''.texts[i]? = some { t with pending := true } ∧
        s''.texts.getLast? = some { TextEntries.null (normalized_to_rgba s.current_color)
          s.font_size with position := s.last_cursor_position, text := "" ++ c } := by
  obtain ⟨hi, -⟩ := List.getElem?_eq_some.mp ht
  have hred : input s (.mouseInput true .right now) =
      some { s with
        editing_text_index := some i, start_typing := true,
        texts := (s.texts.set i { t with pending := true }) ++
          [{ TextEntries.null (normalized_to_rgba s.current_color) s.font_size with
              position := s.last_cursor_position }],
        last_click_time := some now,
        last_click_position := some s.last_cursor_position } := by
    simp [input, handle_mouse_input, handle_right_press, hdc, hhit, ht, create_new_text]
  have hset_len : (s.texts.set i { t with pending := true }).length = s.texts.length := by
    simp
  refine ⟨_, hred, rfl, rfl, by simp, ?_, by rw [List.getLast?_concat], ?_⟩
  · rw [List.getElem?_append_left (by simpa using hi)]
    simp [List.getElem?_set_self, hi]
  · intro c
    obtain ⟨s'', hin, htexts⟩ := char_appends_to_last
      { s with
        editing_text_index := some i, start_typing := true,
        texts := (s.texts.set i { t with pending := true }) ++
          [{ TextEntries.null (normalized_to_rgba s.current_color) s.font_size with
              position := s.last_cursor_position }],
        last_click_time := some now,
        last_click_position := some s.last_cursor_position } c
      (s.texts.set i { t with pending := true })
      { TextEntries.null (normalized_to_rgba s.current_color) s.font_size with
          position := s.last_cursor_position }
      rfl rfl rfl
    refine ⟨s'', hin, ?_, ?_⟩
    · rw [htexts, List.getElem?_append_left (by simpa using hi)]
      simp [List.getElem?_set_self, hi]
    · rw [htexts, List.getLast?_concat]
      simp [TextEntries.null]

/-- Claim C2 witness: a double-click hit at a point inside the bounds of
the single committed text enters edit mode targeting index 0. -/
theorem C2_witness :
    ∃ s', input ⟨∅, 16, (1, 1), [], [⟨0, (0, 0, 0, 255), "hi", false, ⟨0, 0, 10, 10⟩, 16⟩],
        (800, 600), false, [], [], (0, 0, 0, 1), false, [], [], false, false, 0,
        some 0, some (1, 1), none⟩ (.mouseInput true .right 100) = some s' ∧
      s'.editing_text_index = some 0 ∧ s'.start_typing = true := by
  have hdc : double_click_detected (some 0) (some ((1 : ℚ), (1 : ℚ))) 100 ((1 : ℚ), (1 : ℚ))
      = true := by
    norm_num [double_click_detected, DOUBLE_CLICK_THRESHOLD, DOUBLE_CLICK_DISTANCE]
  have hhit : hit_text_index [⟨0, (0, 0, 0, 255), "hi", false, ⟨0, 0, 10, 10⟩, 16⟩]
      ((1 : ℚ), (1 : ℚ)) = some 0 := by
    norm_num [hit_text_index, in_bounds, List.findIdx?]
  obtain ⟨s', h1, h2, h3, -⟩ :=
    C2_amended_double_click_hit
      ⟨∅, 16, (1, 1), [], [⟨0, (0, 0, 0, 255), "hi", false, ⟨0, 0, 10, 10⟩, 16⟩],
        (800, 600), false, [], [], (0, 0, 0, 1), false, [], [], false, false, 0,
        some 0, some (1, 1), none⟩ 100 0
      ⟨0, (0, 0, 0, 255), "hi", false, ⟨0, 0, 10, 10⟩, 16⟩ hdc hhit rfl
  exact ⟨s', h1, h2, h3⟩


/-! ### Preservation of the count invariant by each handler -/

lemma actions_length_eq (acts : List Action) :
    acts.length = countStrokeActions acts + countShapeActions acts + countTextActions acts := by
  induction acts with
  | nil => rfl
  | cons a rest ih =>
    cases a <;>
      simp [countStrokeActions, countShapeActions, countTextActions, List.countP_cons] at ih ⊢ <;>
      omega

lemma StateCountInv_handle_focused (s : WindowState) (now : ℚ)
    (h : StateCountInv s) : StateCountInv (handle_focused s now) := by
  rw [handle_focused]
  split
  · simpa [StateCountInv] using h
  · exact h

lemma StateCountInv_handle_cursor_moved (s : WindowState) (position : Pos)
    (h : StateCountInv s) : StateCountInv (handle_cursor_moved s position) := by
  rw [handle_cursor_moved]
  dsimp only
  split
  · split
    · split <;> simpa [StateCountInv] using h
    · simpa [StateCountInv] using h
  · simpa [StateCountInv] using h

lemma StateCountInv_handle_left_press (s : WindowState)
    (h : StateCountInv s) : StateCountInv (handle_left_press s) := by
  rw [handle_left_press]
  dsimp only
  split <;> simpa [StateCountInv] using h

lemma StateCountInv_commit_shape (s : WindowState)
    (h : StateCountInv s) : StateCountInv (commit_shape s) := by
  obtain ⟨h1, h2, h3, h4⟩ := h
  rw [commit_shape]
  split
  · refine ⟨?_, ?_, ?_, ?_⟩ <;>
      simp [countStrokeActions, countShapeActions, countTextActions,
        List.countP_append, List.countP_cons] at h1 h2 h3 h4 ⊢ <;>
      simp_all
  · exact ⟨h1, h2, h3, h4⟩

lemma StateCountInv_handle_left_release (s : WindowState)
    (h : StateCountInv s) : StateCountInv (handle_left_release s) := by
  rw [handle_left_release]
  dsimp only
  apply StateCountInv_commit_shape
  obtain ⟨h1, h2, h3, h4⟩ := h
  split
  · refine ⟨?_, ?_, ?_, ?_⟩ <;>
      simp [countStrokeActions, countShapeActions, countTextActions,
        List.countP_append, List.countP_cons] at h1 h2 h3 h4 ⊢ <;>
      simp_all
  · exact ⟨h1, h2, h3, h4⟩

lemma countStrokeActions_append (l1 l2 : List Action) :
    countStrokeActions (l1 ++ l2) = countStrokeActions l1 + countStrokeActions l2 :=
  List.countP_append _ _ _

lemma countShapeActions_append (l1 l2 : List Action) :
    countShapeActions (l1 ++ l2) = countShapeActions l1 + countShapeActions l2 :=
  List.countP_append _ _ _

lemma countTextActions_append (l1 l2 : List Action) :
    countTextActions (l1 ++ l2) = countTextActions l1 + countTextActions l2 :=
  List.countP_append _ _ _

lemma countStrokeActions_stroke (l : List Vertex) :
    countStrokeActions [Action.stroke l] = 1 := rfl

lemma countStrokeActions_text (t : TextEntries) :
    countStrokeActions [Action.text t] = 0 := rfl

lemma countStrokeActions_shapes (r : Rectangle) :
    countStrokeActions [Action.shapes r] = 0 := rfl

lemma countShapeActions_stroke (l : List Vertex) :
    countShapeActions [Action.stroke l] = 0 := rfl

lemma countShapeActions_text (t : TextEntries) :
    countShapeActions [Action.text t] = 0 := rfl

lemma countShapeActions_shapes (r : Rectangle) :
    countShapeActions [Action.shapes r] = 1 := rfl

lemma countTextActions_stroke (l : List Vertex) :
    countTextActions [Action.stroke l] = 0 := rfl

lemma countTextActions_text (t : TextEntries) :
    countTextActions [Action.text t] = 1 := rfl

lemma countTextActions_shapes (r : Rectangle) :
    countTextActions [Action.shapes r] = 0 := rfl

lemma StateCountInv_create_new_text (s : WindowState)
    (h1 : countStrokeActions s.actions = s.strokes.length)
    (h2 : countShapeActions s.actions = s.shapes.length)
    (h3 : countTextActions s.actions ≤ s.texts.length) :
    StateCountInv (create_new_text s) := by
  rw [create_new_text]
  refine ⟨h1, h2, ?_, ?_⟩
  · try simp
    omega
  · intro hx
    try simp
    omega

lemma StateCountInv_commit_last_text (s : WindowState)
    (h : StateCountInv s)
    (htyp : s.start_typing = true) (hed : s.editing_text_index = none) :
    StateCountInv (commit_last_text s) := by
  obtain ⟨h1, h2, h3, h4⟩ := h
  have hlt := h4 (Or.inl htyp)
  rw [commit_last_text]
  split
  case _ t heq =>
    have hne : s.texts ≠ [] := by
      intro hnil
      rw [hnil] at heq
      exact Option.noConfusion heq
    have hpos : 0 < s.texts.length := List.length_pos.mpr hne
    refine ⟨?_, ?_, ?_, ?_⟩
    · simp [countStrokeActions_append, countStrokeActions_text]
      omega
    · simp [countShapeActions_append, countShapeActions_text]
      omega
    · simp [countTextActions_append, countTextActions_text]
      omega
    · intro hx
      simp [hed] at hx
  · exact ⟨h1, h2, h3, by simp [hed]⟩

lemma StateCountInv_handle_enter_commit (s : WindowState)
    (h : StateCountInv s)
    (hsess : s.start_typing = true ∨ s.editing_text_index.isSome = true) :
    StateCountInv (handle_enter_commit s) := by
  obtain ⟨h1, h2, h3, h4⟩ := h
  have hlt := h4 hsess
  rw [handle_enter_commit]
  dsimp only
  split
  case _ t heq =>
    have hne : s.texts ≠ [] := by
      intro hnil
      rw [hnil] at heq
      exact Option.noConfusion heq
    have hpos : 0 < s.texts.length := List.length_pos.mpr hne
    refine ⟨?_, ?_, ?_, ?_⟩
    · simp [countStrokeActions_append, countStrokeActions_text]
      omega
    · simp [countShapeActions_append, countShapeActions_text]
      omega
    · simp [countTextActions_append, countTextActions_text]
      omega
    · intro hx
      simp at hx
  · exact ⟨h1, h2, h3, by simp⟩

lemma StateCountInv_append_char_to_last (s : WindowState) (c : String)
    (h : StateCountInv s) : StateCountInv (append_char_to_last s c) := by
  obtain ⟨h1, h2, h3, h4⟩ := h
  rw [append_char_to_last]
  split
  case _ t heq =>
    have hne : s.texts ≠ [] := by
      intro hnil
      rw [hnil] at heq
      exact Option.noConfusion heq
    have hpos : 0 < s.texts.length := List.length_pos.mpr hne
    split
    · refine ⟨h1, h2, ?_, ?_⟩
      · try simp
        omega
      · intro hx
        have hlt := h4 hx
        try simp
        omega
    · exact ⟨h1, h2, h3, h4⟩
  · exact ⟨h1, h2, h3, h4⟩

lemma StateCountInv_handle_delete (s : WindowState)
    (h : StateCountInv s) : StateCountInv (handle_delete s) := by
  obtain ⟨h1, h2, h3, h4⟩ := h
  rw [handle_delete]
  split
  · split
    · refine ⟨h1, h2, ?_, ?_⟩
      · try simp
        omega
      · intro hx
        have hlt := h4 hx
        try simp
        omega
    · exact ⟨h1, h2, h3, h4⟩
  · split
    case _ t heq =>
      have hne : s.texts ≠ [] := by
        intro hnil
        rw [hnil] at heq
        exact Option.noConfusion heq
      have hpos : 0 < s.texts.length := List.length_pos.mpr hne
      refine ⟨h1, h2, ?_, ?_⟩
      · try simp
        omega
      · intro hx
        have hlt := h4 hx
        try simp
        omega
    · exact ⟨h1, h2, h3, h4⟩

lemma StateCountInv_handle_backspace (s : WindowState) (s' : WindowState)
    (h : StateCountInv s) (heq : handle_backspace s = some s') :
    StateCountInv s' := by
  obtain ⟨h1, h2, h3, h4⟩ := h
  rw [handle_backspace] at heq
  split at heq
  · split at heq
    · exact Option.noConfusion heq
    · split at heq
      · obtain rfl := Option.some.inj heq
        refine ⟨h1, h2, ?_, ?_⟩
        · try simp
          omega
        · intro hx
          have hlt := h4 hx
          try simp
          omega
      · obtain rfl := Option.some.inj heq
        exact ⟨h1, h2, h3, h4⟩
  · split at heq
    case _ t hlast =>
      have hne : s.texts ≠ [] := by
        intro hnil
        rw [hnil] at hlast
        exact Option.noConfusion hlast
      have hpos : 0 < s.texts.length := List.length_pos.mpr hne
      split at heq
      · obtain rfl := Option.some.inj heq
        refine ⟨h1, h2, ?_, ?_⟩
        · try simp
          omega
        · intro hx
          have hlt := h4 hx
          try simp
          omega
      · obtain rfl := Option.some.inj heq
        exact ⟨h1, h2, h3, h4⟩
    · obtain rfl := Option.some.inj heq
      exact ⟨h1, h2, h3, h4⟩

lemma StateCountInv_undo (s : WindowState) (h : StateCountInv s)
    (htyp : s.start_typing = false) (hed : s.editing_text_index = none) :
    StateCountInv (undo s) := by
  obtain ⟨h1, h2, h3, h4⟩ := h
  rw [undo]
  split
  case _ a hg =>
    rcases List.eq_nil_or_concat s.actions with hnil | ⟨acts0, a0, hconcat⟩
    · rw [hnil] at hg
      exact Option.noConfusion hg
    · rw [List.concat_eq_append] at hconcat
      have ha : a = a0 := by
        rw [hconcat, List.getLast?_concat] at hg
        exact (Option.some.inj hg).symm
      subst ha
      have hdrop : s.actions.dropLast = acts0 := by
        rw [hconcat]
        simp
      cases a with
      | stroke l =>
        have hc1 : countStrokeActions s.actions = countStrokeActions acts0 + 1 := by
          simp [hconcat, countStrokeActions_append, countStrokeActions_stroke]
        have hc2 : countShapeActions s.actions = countShapeActions acts0 := by
          simp [hconcat, countShapeActions_append, countShapeActions_stroke]
        have hc3 : countTextActions s.actions = countTextActions acts0 := by
          simp [hconcat, countTextActions_append, countTextActions_stroke]
        refine ⟨?_, ?_, ?_, ?_⟩ <;> dsimp only
        · rw [hdrop, List.length_dropLast]
          omega
        · rw [hdrop]
          omega
        · rw [hdrop]
          omega
        · intro hx
          simp [htyp, hed] at hx
      | text t =>
        have hc1 : countStrokeActions s.actions = countStrokeActions acts0 := by
          simp [hconcat, countStrokeActions_append, countStrokeActions_text]
        have hc2 : countShapeActions s.actions = countShapeActions acts0 := by
          simp [hconcat, countShapeActions_append, countShapeActions_text]
        have hc3 : countTextActions s.actions = countTextActions acts0 + 1 := by
          simp [hconcat, countTextActions_append, countTextActions_text]
        refine ⟨?_, ?_, ?_, ?_⟩ <;> dsimp only
        · rw [hdrop]
          omega
        · rw [hdrop]
          omega
        · rw [hdrop, List.length_dropLast]
          omega
        · intro hx
          simp [htyp, hed] at hx
      | shapes r =>
        have hc1 : countStrokeActions s.actions = countStrokeActions acts0 := by
          simp [hconcat, countStrokeActions_append, countStrokeActions_shapes]
        have hc2 : countShapeActions s.actions = countShapeActions acts0 + 1 := by
          simp [hconcat, countShapeActions_append, countShapeActions_shapes]
        have hc3 : countTextActions s.actions = countTextActions acts0 := by
          simp [hconcat, countTextActions_append, countTextActions_shapes]
        refine ⟨?_, ?_, ?_, ?_⟩ <;> dsimp only
        · rw [hdrop]
          omega
        · rw [hdrop, List.length_dropLast]
          omega
        · rw [hdrop]
          omega
        · intro hx
          simp [htyp, hed] at hx
  · exact ⟨h1, h2, h3, h4⟩

lemma StateCountInv_commit_or_create (x : WindowState) (h : StateCountInv x) :
    StateCountInv (if x.start_typing = true ∧ x.editing_text_index = none
      then commit_last_text x else create_new_text x) := by
  split
  case isTrue hc => exact StateCountInv_commit_last_text x h hc.1 hc.2
  case isFalse => exact StateCountInv_create_new_text x h.1 h.2.1 h.2.2.1

lemma StateCountInv_handle_right_press (s : WindowState) (now : ℚ)
    (h : StateCountInv s) : StateCountInv (handle_right_press s now) := by
  rw [handle_right_press]
  dsimp only
  split
  · cases hhit : hit_text_index s.texts s.last_cursor_position with
    | some i =>
      try simp only [hhit]
      cases hget : s.texts[i]? with
      | some t =>
        try simp only [hget]
        try dsimp only
        rw [if_neg (by simp)]
        exact StateCountInv_create_new_text _ h.1 h.2.1 (by simpa using h.2.2.1)
      | none =>
        try simp only [hget]
        exact StateCountInv_commit_or_create
          { s with last_click_time := some now,
                   last_click_position := some s.last_cursor_position }
          ⟨h.1, h.2.1, h.2.2.1, h.2.2.2⟩
    | none =>
      try simp only [hhit]
      exact StateCountInv_commit_or_create
        { s with last_click_time := some now,
                 last_click_position := some s.last_cursor_position }
        ⟨h.1, h.2.1, h.2.2.1, h.2.2.2⟩
  · exact StateCountInv_commit_or_create
      { s with last_click_time := some now,
               last_click_position := some s.last_cursor_position }
      ⟨h.1, h.2.1, h.2.2.1, h.2.2.2⟩

lemma StateCountInv_handle_key_press (s : WindowState) (key : Key) (s' : WindowState)
    (h : StateCountInv s) (heq : handle_key_press s key = some s') :
    StateCountInv s' := by
  have hInv1 : StateCountInv { s with pressed_keys := insert key s.pressed_keys } :=
    ⟨h.1, h.2.1, h.2.2.1, h.2.2.2⟩
  simp only [handle_key_press] at heq
  split at heq
  case isTrue hcond =>
    have hsess : ({ s with pressed_keys := insert key s.pressed_keys } :
        WindowState).start_typing = true ∨
        ({ s with pressed_keys := insert key s.pressed_keys } :
        WindowState).editing_text_index.isSome = true := hcond
    cases key <;> simp only at heq
    case character c =>
      obtain rfl := Option.some.inj heq
      exact StateCountInv_append_char_to_last _ c hInv1
    case enter =>
      obtain rfl := Option.some.inj heq
      exact StateCountInv_handle_enter_commit _ hInv1 hsess
    case goBack =>
      obtain rfl := Option.some.inj heq
      exact StateCountInv_handle_enter_commit _ hInv1 hsess
    case delete =>
      obtain rfl := Option.some.inj heq
      exact StateCountInv_handle_delete _ hInv1
    case backspace =>
      exact StateCountInv_handle_backspace _ _ hInv1 heq
    all_goals
      obtain rfl := Option.some.inj heq
      exact hInv1
  case isFalse hcond =>
    split at heq
    · obtain rfl := Option.some.inj heq
      have htyp : s.start_typing = false := by
        rcases Bool.eq_false_or_eq_true s.start_typing with hb | hb
        · exact absurd (Or.inl hb) hcond
        · exact hb
      have hed : s.editing_text_index = none := by
        cases he : s.editing_text_index with
        | none => rfl
        | some i => exact absurd (Or.inr (by simp [he])) hcond
      exact StateCountInv_undo _ hInv1 htyp hed
    · obtain rfl := Option.some.inj heq
      exact hInv1

lemma StateCountInv_handle_key_release (s : WindowState) (key : Key)
    (h : StateCountInv s) : StateCountInv (handle_key_release s key) := by
  rw [handle_key_release]
  exact StateCountInv_commit_shape _ ⟨h.1, h.2.1, h.2.2.1, h.2.2.2⟩

lemma StateCountInv_handle_mouse_input (s : WindowState) (pressed : Bool)
    (button : MouseButton) (now : ℚ) (h : StateCountInv s) :
    StateCountInv (handle_mouse_input s pressed button now) := by
  cases button <;> cases pressed
  · exact StateCountInv_handle_left_release s h
  · exact StateCountInv_handle_left_press s h
  · exact h
  · exact StateCountInv_handle_right_press s now h
  · exact h
  · exact h
  · exact h
  · exact h

lemma StateCountInv_input (s : WindowState) (e : WindowEvent) (s' : WindowState)
    (h : StateCountInv s) (heq : input s e = some s') : StateCountInv s' := by
  cases e with
  | focused f now =>
    obtain rfl := Option.some.inj heq
    exact StateCountInv_handle_focused s now h
  | modifiersChanged =>
    obtain rfl := Option.some.inj heq
    exact h
  | cursorMoved position =>
    obtain rfl := Option.some.inj heq
    exact StateCountInv_handle_cursor_moved s position h
  | mouseInput pressed button now =>
    obtain rfl := Option.some.inj heq
    exact StateCountInv_handle_mouse_input s pressed button now h
  | keyboardInput pressed key =>
    cases pressed with
    | true =>
      simp only [input, if_pos] at heq
      exact StateCountInv_handle_key_press s key s' h heq
    | false =>
      simp only [input, if_neg] at heq
      obtain rfl := Option.some.inj heq
      exact StateCountInv_handle_key_release s key h
  | resized w hh =>
    obtain rfl := Option.some.inj heq
    exact ⟨h.1, h.2.1, h.2.2.1, h.2.2.2⟩

lemma StateCountInv_initState (w h : ℕ) : StateCountInv (initState w h) := by
  refine ⟨rfl, rfl, le_refl _, ?_⟩
  intro hx
  simp [initState] at hx

lemma Reachable_StateCountInv (s : WindowState) (h : Reachable s) : StateCountInv s := by
  induction h with
  | init w h => exact StateCountInv_initState w h
  | step hr heq ih => exact StateCountInv_input _ _ _ ih heq

/-- Claim C1 counterexample: a single right-button press from the initial
state creates a pending text entry without logging an action, so the
action-log length 0 differs from the collection-length sum 1 at an
observable point between event-handler invocations. -/
theorem C1_cex_text_creation_unlogged :
    (Option.map (fun s => (s.actions.length, s.strokes.length + s.shapes.length + s.texts.length))
      (runEvents (initState 800 600) [.mouseInput true .right 0])) = some (0, 1) := by
  have h1 : input (initState 800 600) (.mouseInput true .right 0) =
      some ⟨∅, 16, 0, [], [⟨0, (0,0,0,255), "", true, ⟨0,0,0,0⟩, 16⟩], (800,600), false,
            [], [], (0,0,0,1), true, [], [], false, false, 0, some 0, some 0, none⟩ := by
    simp [input, handle_mouse_input, handle_right_press, double_click_detected,
      hit_text_index, commit_last_text, create_new_text, initState, TextEntries.null,
      normalized_to_rgba]
  simp [runEvents, h1]

/-- Claim C1 (amended): at every observable point between event-handler
invocations, the length of the action log equals the sum of the lengths
of the strokes and shapes collections plus the number of Text actions in
the log, and the number of Text actions never exceeds the length of the
texts collection.  Pushes to the strokes and shapes collections are
paired atomically with log pushes, but a text entry enters the texts
collection at creation and is logged only at commit, so the plain
three-way sum equality of the original claim fails while an uncommitted
text exists. -/
theorem C1_amended_log_counts (s : WindowState) (h : Reachable s) :
    s.actions.length =
      s.strokes.length + s.shapes.length + countTextActions s.actions ∧
    countTextActions s.actions ≤ s.texts.length := by
  obtain ⟨h1, h2, h3, h4⟩ := Reachable_StateCountInv s h
  refine ⟨?_, h3⟩
  rw [actions_length_eq s.actions, h1, h2]

/-- Claim C1 witness: the amended count equality evaluated at the initial
state, which is reachable by the empty event sequence. -/
theorem C1_witness :
    (initState 800 600).actions.length =
      (initState 800 600).strokes.length + (initState 800 600).shapes.length +
        countTextActions (initState 800 600).actions ∧
    countTextActions (initState 800 600).actions ≤ (initState 800 600).texts.length :=
  C1_amended_log_counts (initState 800 600) (Reachable.init 800 600)

end Whiteboard
